import Mathlib

/-!
Shallow embedding of the nf_tables chain evaluation engine from
net/netfilter/nf_tables_core.c (RHEL 7.6, kernel 3.10.0-957.27.2.el7).

The embedding follows the source function by function:
* nft_cmp_fast_eval        (lines 73-82)
* nft_payload_fast_eval    (lines 84-111)
* struct nft_jumpstack     (lines 113-117)
* nft_do_chain             (lines 119-232), decomposed into
  - nft_do_chain_rules : the list_for_each_entry_continue_rcu loop at
    label next_rule (lines 145-176),
  - nft_do_chain_step  : one round of that loop followed by the two verdict
    switches and the stack pop / policy fallthrough (lines 145-231),
  - nft_do_chain_run   : iterating nft_do_chain_step; the fuel parameter is
    an artifact of the embedding (the C code is a goto loop that need not
    terminate for arbitrary rule sets), with none meaning fuel exhaustion,
  - nft_do_chain       : the namespace guard (lines 135-137), the single
    gencursor sample (line 132) and the initial state.

Machine integers are modelled as Nat; the negative NFT_* verdict signals
are written as the u32 two's-complement values the C code stores in
regs.verdict.code.  The kernel helpers that live in headers outside this
repository snapshot (nft_cmp_fast_mask, nft_genmask_cur, nft_trace_init)
are modelled from the specification where noted.

Instrumentation carried by the embedding so that properties become
statable: the list of trace events emitted, the list of rules whose
expressions were evaluated (visited), the per-core statistics delta, a
flag recording whether WARN_ON(1) fired, and an outcome tag recording
which return statement produced the final verdict.
-/

namespace NftCore

/-- Netfilter terminal disposition NF_DROP (uapi constant, value 0). -/
def NF_DROP : Nat := 0

/-- Netfilter terminal disposition NF_ACCEPT (uapi constant, value 1). -/
def NF_ACCEPT : Nat := 1

/-- Netfilter terminal disposition NF_STOLEN (uapi constant, value 2).
nft_do_chain does not recognize it: it reaches the default switch arm. -/
def NF_STOLEN : Nat := 2

/-- Netfilter terminal disposition NF_QUEUE (uapi constant, value 3). -/
def NF_QUEUE : Nat := 3

/-- Mask NF_VERDICT_MASK (0xff) applied before the terminal-disposition switch. -/
def NF_VERDICT_MASK : Nat := 0xff

/-- Internal verdict NFT_CONTINUE, the u32 image of the enum value -1. -/
def NFT_CONTINUE : Nat := 0xffffffff

/-- Internal verdict NFT_BREAK, the u32 image of the enum value -2. -/
def NFT_BREAK : Nat := 0xfffffffe

/-- Internal verdict NFT_JUMP, the u32 image of the enum value -3. -/
def NFT_JUMP : Nat := 0xfffffffd

/-- Internal verdict NFT_GOTO, the u32 image of the enum value -4. -/
def NFT_GOTO : Nat := 0xfffffffc

/-- Internal verdict NFT_RETURN, the u32 image of the enum value -5. -/
def NFT_RETURN : Nat := 0xfffffffb

/-- Fixed capacity of the on-stack jumpstack array (kernel constant, 16). -/
def NFT_JUMP_STACK_SIZE : Nat := 16

/-- Payload base NFT_PAYLOAD_NETWORK_HEADER (uapi constant, value 1).
nft_payload_fast_eval treats every other base as transport-relative. -/
def NFT_PAYLOAD_NETWORK_HEADER : Nat := 1

/-- Chains are identified by an abstract id standing for the C chain pointer. -/
abbrev ChainId := Nat

/-- Model of struct nft_verdict: the u32 code and the jump/goto target
chain (a pointer in C, in union with the code's containing struct). -/
structure nft_verdict where
  code : Nat
  chain : ChainId

/-- Model of struct nft_regs: the verdict register and the data registers,
indexed by register number. -/
structure nft_regs where
  verdict : nft_verdict
  data : Nat → Nat

/-- Model of the packet view (struct nft_pktinfo plus the skb fields used by
nft_do_chain): raw bytes addressed by absolute position, the network-header
position, the transport-header offset (pkt->xt.thoff), the tail pointer
position, the total length skb->len, the owning namespace of the delivering
device (dev_net of pkt->in / pkt->out), the namespace's current generation
cursor (nft_genmask_cur, sampled by nft_do_chain at line 132), and the
skb->nf_trace flag. -/
structure nft_pktinfo where
  data : Nat → Nat
  networkHeader : Nat
  thoff : Nat
  tail : Nat
  len : Nat
  net : Nat
  gencursor : Nat
  nfTrace : Bool

/-- Model of one expression of a rule.  The two fast-path kinds recognized
by identity in nft_do_chain's dispatch (lines 156-160) are explicit
constructors; every other expression kind goes through its ops->eval
function, modelled as an arbitrary register/packet transformer.  The
payload fast path keeps its own generic evaluator (the expression's
ops->eval, nft_payload_eval, which lives outside this file) to fall back
to when the fast path reports failure. -/
inductive nft_expr where
  | cmp_fast (sreg len data : Nat)
  | payload_fast (base off len dreg : Nat) (geval : nft_regs → nft_pktinfo → nft_regs)
  | generic (geval : nft_regs → nft_pktinfo → nft_regs)

/-- Model of struct nft_rule: the generation mask (a set bit at the current
generation cursor means the rule is NOT active in that generation, line 150)
and the ordered expression list. -/
structure nft_rule where
  genmask : Nat
  exprs : List nft_expr

/-- Model of struct nft_jumpstack (lines 113-117).  The saved rule pointer
is modelled as the rule's position in its chain's list; resumption continues
with the following rule, as list_for_each_entry_continue_rcu does. -/
structure nft_jumpstack where
  chain : ChainId
  pos : Nat
  rulenum : Nat
deriving DecidableEq

/-- A rule set: every chain's ordered rule list.  Chains not present are
modelled as empty. -/
structure Ruleset where
  chains : ChainId → List nft_rule

/-- Model of the base chain fields nft_do_chain reads: its identity (the
ops->priv pointer), its configured default policy, and its owning network
namespace (read_pnet of its pnet, line 123). -/
structure nft_base_chain where
  id : ChainId
  policy : Nat
  pnet : Nat
deriving DecidableEq

/-- Trace event kinds, mirroring NFT_TRACETYPE_RULE / _RETURN / _POLICY. -/
inductive nft_trace_type where
  | rule
  | ret
  | policy
deriving DecidableEq

/-- One emitted trace event: its kind, the chain it reports and the rule
number (an int in C; the policy event uses -1). -/
structure nft_trace_event where
  ty : nft_trace_type
  chain : ChainId
  rulenum : Int
deriving DecidableEq

/-- Tracing gate: nft_trace_packet emits only when the global static key
nft_trace_enabled is on and the packet's skb->nf_trace flag is set
(info.trace is set by nft_trace_init exactly when the key is on; that
helper lives outside this file and is modelled from the spec's account of
the global toggle).  The whole gate is precomputed into one boolean tron. -/
def nft_trace_events (tron : Bool) (ty : nft_trace_type) (chain : ChainId)
    (rulenum : Int) : List nft_trace_event :=
  if tron then [⟨ty, chain, rulenum⟩] else []

/-- Modelled from the spec: nft_cmp_fast_mask lives in the core header, not
in this file's sources.  It derives from the compare length (in bits) the
mask for the compared register slice: the low len bits. -/
def nft_cmp_fast_mask (len : Nat) : Nat := 0xffffffff >>> (32 - len)

/-- Model of nft_cmp_fast_eval (lines 73-82): compare the masked source
register with the immediate; on mismatch set the verdict register to
NFT_BREAK, on match return with every register untouched. -/
def nft_cmp_fast_eval (sreg len data : Nat) (regs : nft_regs) : nft_regs :=
  if regs.data sreg &&& nft_cmp_fast_mask len = data then regs
  else { regs with verdict := { regs.verdict with code := NFT_BREAK } }

/-- Position of the first loaded byte (lines 93-98): network-header
relative, or transport-header relative for every other base. -/
def nft_payload_ptr (base off : Nat) (pkt : nft_pktinfo) : Nat :=
  (if base = NFT_PAYLOAD_NETWORK_HEADER then pkt.networkHeader
   else pkt.networkHeader + pkt.thoff) + off

/-- Value stored into the destination register by the raw copy at lines
103-109: the register is zeroed, then 2, 4 or (for any other length) 1
byte is copied; the bytes land in the register in memory order, modelled
little-endian as on the primary target. -/
def nft_payload_load (pkt : nft_pktinfo) (ptr len : Nat) : Nat :=
  if len = 2 then pkt.data ptr + 0x100 * pkt.data (ptr + 1)
  else if len = 4 then
    pkt.data ptr + 0x100 * pkt.data (ptr + 1) + 0x10000 * pkt.data (ptr + 2)
      + 0x1000000 * pkt.data (ptr + 3)
  else pkt.data ptr

/-- Model of nft_payload_fast_eval (lines 84-111).  The bounds check at
line 100 (ptr + len >= skb_tail_pointer) runs before any copy; failure
returns none (the C false) and writes nothing, success returns the updated
register file (the C true). -/
def nft_payload_fast_eval (base off len dreg : Nat) (regs : nft_regs)
    (pkt : nft_pktinfo) : Option nft_regs :=
  let ptr := nft_payload_ptr base off pkt
  if pkt.tail ≤ ptr + len then none
  else some { regs with
    data := fun i => if i = dreg then nft_payload_load pkt ptr len else regs.data i }

/-- The expression dispatch of nft_do_chain (lines 156-160): the compare
fast path by identity, then the payload fast path by identity with
fallback to the expression's own ops->eval when it reports failure, then
generic dispatch. -/
def nft_expr_eval (e : nft_expr) (regs : nft_regs) (pkt : nft_pktinfo) : nft_regs :=
  match e with
  | .cmp_fast sreg len data => nft_cmp_fast_eval sreg len data regs
  | .payload_fast base off len dreg geval =>
    match nft_payload_fast_eval base off len dreg regs pkt with
    | some regs1 => regs1
    | none => geval regs pkt
  | .generic geval => geval regs pkt

/-- The nft_rule_for_each_expr loop (lines 155-164): evaluate the rule's
expressions in order, stopping as soon as the verdict register leaves
NFT_CONTINUE. -/
def nft_rule_eval_exprs : List nft_expr → nft_regs → nft_pktinfo → nft_regs
  | [], regs, _ => regs
  | e :: rest, regs, pkt =>
    let regs1 := nft_expr_eval e regs pkt
    if regs1.verdict.code ≠ NFT_CONTINUE then regs1
    else nft_rule_eval_exprs rest regs1 pkt

/-- Result of one pass of the rule loop at label next_rule: the register
file, the position of the rule that left the verdict (one past the end
when the loop ran off the chain), the rule counter, the trace events
emitted, and — instrumentation — the rules whose expressions ran. -/
structure RulePhase where
  regs : nft_regs
  pos : Nat
  rulenum : Nat
  events : List nft_trace_event
  visited : List nft_rule

/-- The list_for_each_entry_continue_rcu loop at lines 147-176, from a
given position: skip rules whose genmask bit at the sampled gencursor is
set (line 150), count and evaluate the rest; NFT_BREAK resets the verdict
and moves on, NFT_CONTINUE traces a rule event and moves on, anything else
leaves the loop. -/
def nft_do_chain_rules (pkt : nft_pktinfo) (tron : Bool) (gencursor : Nat)
    (chain : ChainId) :
    List nft_rule → Nat → Nat → nft_regs → RulePhase
  | [], pos, rulenum, regs => ⟨regs, pos, rulenum, [], []⟩
  | r :: rest, pos, rulenum, regs =>
    if r.genmask &&& (1 <<< gencursor) ≠ 0 then
      nft_do_chain_rules pkt tron gencursor chain rest (pos + 1) rulenum regs
    else
      let regs1 := nft_rule_eval_exprs r.exprs regs pkt
      let rulenum1 := rulenum + 1
      if regs1.verdict.code = NFT_BREAK then
        let regs2 := { regs1 with verdict := { regs1.verdict with code := NFT_CONTINUE } }
        let ph := nft_do_chain_rules pkt tron gencursor chain rest (pos + 1) rulenum1 regs2
        { ph with visited := r :: ph.visited }
      else if regs1.verdict.code = NFT_CONTINUE then
        let ph := nft_do_chain_rules pkt tron gencursor chain rest (pos + 1) rulenum1 regs1
        { ph with
          events := nft_trace_events tron .rule chain (Int.ofNat rulenum1) ++ ph.events,
          visited := r :: ph.visited }
      else
        ⟨regs1, pos, rulenum1, [], [r]⟩

/-- Interpreter state at label next_rule: the current chain, the position
to resume its rule list at, the rule counter, the jump stack (head is the
top, its length is stackptr) and the register file. -/
structure EvalState where
  chain : ChainId
  pos : Nat
  rulenum : Nat
  stack : List nft_jumpstack
  regs : nft_regs

/-- Which return statement of nft_do_chain produced the result:
a terminal disposition returned from a rule's verdict (line 184), the base
chain's policy after the stats update (line 231), the namespace-guard
pass-through (line 137), or the BUG_ON abort at line 189 (a kernel panic,
so no value is returned). -/
inductive Outcome where
  | fromRule (code : Nat)
  | fromPolicy (code : Nat)
  | nsMismatch (code : Nat)
  | stackBug
deriving DecidableEq

/-- Observable result of a whole traversal: the outcome, the per-core
statistics delta applied to the base chain (packets, bytes), the emitted
trace events, the rules evaluated, and whether WARN_ON(1) fired. -/
structure RunResult where
  outcome : Outcome
  pkts : Nat
  bytes : Nat
  events : List nft_trace_event
  visited : List nft_rule
  warned : Bool

/-- Result of one outer round: continue at a new next_rule state, finish
with an outcome and a statistics delta, or hit the BUG_ON. -/
inductive StepRes where
  | cont (st : EvalState) (events : List nft_trace_event)
      (visited : List nft_rule) (warned : Bool)
  | done (outcome : Outcome) (pkts bytes : Nat) (events : List nft_trace_event)
      (visited : List nft_rule) (warned : Bool)
  | stackBug (events : List nft_trace_event) (visited : List nft_rule)

/-- Verdict-register reset at label next_rule (line 146). -/
def resetVerdict (regs : nft_regs) : nft_regs :=
  { regs with verdict := { regs.verdict with code := NFT_CONTINUE } }

/-- The rule loop of one outer round, started from the state's current
chain and resume position with the verdict register reset. -/
def nft_do_chain_phase (rs : Ruleset) (pkt : nft_pktinfo) (tron : Bool)
    (gencursor : Nat) (st : EvalState) : RulePhase :=
  nft_do_chain_rules pkt tron gencursor st.chain
    ((rs.chains st.chain).drop st.pos) st.pos st.rulenum (resetVerdict st.regs)

/-- One outer round of nft_do_chain (lines 145-231): reset the verdict
register, run the rule loop, then the terminal-disposition switch (lines
178-185, returning the raw code when its low byte is NF_ACCEPT / NF_DROP /
NF_QUEUE), then the verdict switch (lines 187-210: NFT_JUMP with the
BUG_ON overflow guard and the frame push, NFT_GOTO without a push,
NFT_CONTINUE / NFT_RETURN tracing a return event, and WARN_ON(1) for
everything else), and finally the stack pop (lines 212-218) or the policy
fallthrough with the stats update (lines 220-231). -/
def nft_do_chain_step (rs : Ruleset) (bc : nft_base_chain) (pkt : nft_pktinfo)
    (tron : Bool) (gencursor : Nat) (st : EvalState) : StepRes :=
  let ph := nft_do_chain_phase rs pkt tron gencursor st
  let v := ph.regs.verdict.code
  if v &&& NF_VERDICT_MASK = NF_ACCEPT ∨ v &&& NF_VERDICT_MASK = NF_DROP ∨
      v &&& NF_VERDICT_MASK = NF_QUEUE then
    .done (.fromRule v) 0 0
      (ph.events ++ nft_trace_events tron .rule st.chain (Int.ofNat ph.rulenum))
      ph.visited false
  else if v = NFT_JUMP then
    if NFT_JUMP_STACK_SIZE ≤ st.stack.length then
      .stackBug ph.events ph.visited
    else
      .cont ⟨ph.regs.verdict.chain, 0, 0, ⟨st.chain, ph.pos, ph.rulenum⟩ :: st.stack, ph.regs⟩
        (ph.events ++ nft_trace_events tron .rule st.chain (Int.ofNat ph.rulenum))
        ph.visited false
  else if v = NFT_GOTO then
    .cont ⟨ph.regs.verdict.chain, 0, 0, st.stack, ph.regs⟩
      (ph.events ++ nft_trace_events tron .rule st.chain (Int.ofNat ph.rulenum))
      ph.visited false
  else
    let retEvs :=
      if v = NFT_CONTINUE then nft_trace_events tron .ret st.chain (Int.ofNat (ph.rulenum + 1))
      else if v = NFT_RETURN then nft_trace_events tron .ret st.chain (Int.ofNat ph.rulenum)
      else []
    let warned := if v = NFT_CONTINUE then false else if v = NFT_RETURN then false else true
    match st.stack with
    | f :: rest =>
      .cont ⟨f.chain, f.pos + 1, f.rulenum, rest, ph.regs⟩
        (ph.events ++ retEvs) ph.visited warned
    | [] =>
      .done (.fromPolicy bc.policy) 1 pkt.len
        (ph.events ++ retEvs ++ nft_trace_events tron .policy bc.id (-1))
        ph.visited warned

/-- Iterate nft_do_chain_step.  The C loop is driven by goto and carries no
fuel; the fuel here is an embedding artifact and none means it ran out. -/
def nft_do_chain_run (rs : Ruleset) (bc : nft_base_chain) (pkt : nft_pktinfo)
    (tron : Bool) (gencursor : Nat) : Nat → EvalState → Option RunResult
  | 0, _ => none
  | fuel + 1, st =>
    match nft_do_chain_step rs bc pkt tron gencursor st with
    | .done o p b evs vis w => some ⟨o, p, b, evs, vis, w⟩
    | .stackBug evs vis => some ⟨.stackBug, 0, 0, evs, vis, false⟩
    | .cont st1 evs vis w =>
      match nft_do_chain_run rs bc pkt tron gencursor fuel st1 with
      | none => none
      | some r => some ⟨r.outcome, r.pkts, r.bytes, evs ++ r.events,
          vis ++ r.visited, w || r.warned⟩

/-- Model of nft_do_chain (lines 119-232): the namespace guard returns
NF_ACCEPT before anything else when the packet's namespace differs from
the base chain's (lines 135-137); otherwise the generation cursor is
sampled once (line 132), the tracing gate is computed, and the interpreter
starts at the base chain's first rule with an empty stack.  The initial
register file is a parameter because the C local struct nft_regs is
uninitialized until the verdict reset at label next_rule. -/
def nft_do_chain (rs : Ruleset) (bc : nft_base_chain) (pkt : nft_pktinfo)
    (regs0 : nft_regs) (traceEnabled : Bool) (fuel : Nat) : Option RunResult :=
  if pkt.net ≠ bc.pnet then some ⟨.nsMismatch NF_ACCEPT, 0, 0, [], [], false⟩
  else
    nft_do_chain_run rs bc pkt (traceEnabled && pkt.nfTrace) pkt.gencursor fuel
      ⟨bc.id, 0, 0, [], regs0⟩

/-- Number of rules visible under the given generation cursor summed over
the given chains (the spec's total_visible_rules over the reachable
chains, which the claims take as a step bound). -/
def total_visible_rules (rs : Ruleset) (cs : List ChainId) (gencursor : Nat) : Nat :=
  (cs.map fun c =>
    ((rs.chains c).filter fun r => r.genmask &&& (1 <<< gencursor) = 0).length).sum

/-- Rules evaluated by a step, uniformly over the three result kinds. -/
def StepRes.visitedRules : StepRes → List nft_rule
  | .cont _ _ vis _ => vis
  | .done _ _ _ _ vis _ => vis
  | .stackBug _ vis => vis

/-! ### Concrete objects used by witnesses and counterexamples -/

/-- A register file with the verdict register at NFT_CONTINUE and zeroed
data registers, standing in for the uninitialized C local. -/
def regsInit : nft_regs := ⟨⟨NFT_CONTINUE, 0⟩, fun _ => 0⟩

/-- A minimal in-namespace packet: namespace 0, generation cursor 0,
60 bytes long, tracing flag off, all payload bytes zero. -/
def pkt0 : nft_pktinfo := ⟨fun _ => 0, 0, 0, 0, 60, 0, 0, false⟩

/-- The empty rule set: every chain has no rules. -/
def rsEmpty : Ruleset := ⟨fun _ => []⟩

/-- A rule with no expressions: its evaluation leaves the verdict register
at NFT_CONTINUE, so the chain moves on to the next rule. -/
def ruleEmpty : nft_rule := ⟨0, []⟩

/-- A rule whose single generic expression sets the given raw verdict code
and target chain. -/
def ruleVerdict (code : Nat) (target : ChainId) : nft_rule :=
  ⟨0, [.generic fun r _ => { r with verdict := ⟨code, target⟩ }]⟩

/-! ### Claim C7: fast-compare equivalence -/

/-- C7: for every register value, length-derived mask and immediate, the
fast-compare expression sets the verdict register to NFT_BREAK iff the
masked register differs from the immediate, and leaves the whole register
file (the verdict register, previously NFT_CONTINUE, included) unchanged
when they agree. -/
theorem nft_cmp_fast_eval_break_iff (regs : nft_regs) (sreg len data : Nat)
    (h : regs.verdict.code = NFT_CONTINUE) :
    ((nft_cmp_fast_eval sreg len data regs).verdict.code = NFT_BREAK ↔
      regs.data sreg &&& nft_cmp_fast_mask len ≠ data) ∧
    (regs.data sreg &&& nft_cmp_fast_mask len = data →
      nft_cmp_fast_eval sreg len data regs = regs) := by
  by_cases hc : regs.data sreg &&& nft_cmp_fast_mask len = data
  · refine ⟨?_, fun _ => by simp [nft_cmp_fast_eval, hc]⟩
    simp only [nft_cmp_fast_eval, if_pos hc, h]
    constructor
    · intro hb
      exact absurd hb (by decide)
    · intro hne
      exact absurd hc hne
  · refine ⟨?_, fun hc2 => absurd hc2 hc⟩
    simp only [nft_cmp_fast_eval, if_neg hc]
    exact ⟨fun _ => hc, fun _ => by simp⟩

/-- Register file used by the C7 witness: source register holds 6. -/
def regsW7 : nft_regs := ⟨⟨NFT_CONTINUE, 0⟩, fun _ => 6⟩

/-- Witness for C7 at sreg 0, an 8-bit compare and immediate 6. -/
theorem nft_cmp_fast_eval_break_iff_witness :
    ((nft_cmp_fast_eval 0 8 6 regsW7).verdict.code = NFT_BREAK ↔
      regsW7.data 0 &&& nft_cmp_fast_mask 8 ≠ 6) ∧
    (regsW7.data 0 &&& nft_cmp_fast_mask 8 = 6 →
      nft_cmp_fast_eval 0 8 6 regsW7 = regsW7) :=
  nft_cmp_fast_eval_break_iff regsW7 0 8 6 rfl

/-! ### Claim C8: payload fast path fails over to the generic path -/

/-- C8: when the computed position plus load length reaches the packet's
tail pointer, the payload fast path writes no register and reports failure
(none), and the expression dispatch of nft_do_chain then invokes the
expression's generic evaluator on the untouched register file instead. -/
theorem nft_payload_fast_eval_oob (base off len dreg : Nat)
    (geval : nft_regs → nft_pktinfo → nft_regs) (regs : nft_regs) (pkt : nft_pktinfo)
    (h : pkt.tail ≤ nft_payload_ptr base off pkt + len) :
    nft_payload_fast_eval base off len dreg regs pkt = none ∧
    nft_expr_eval (.payload_fast base off len dreg geval) regs pkt = geval regs pkt := by
  have h1 : nft_payload_fast_eval base off len dreg regs pkt = none := by
    unfold nft_payload_fast_eval
    simp [h]
  exact ⟨h1, by simp [nft_expr_eval, h1]⟩

/-- Generic payload evaluator used by the C8 witness. -/
def gevalW8 : nft_regs → nft_pktinfo → nft_regs :=
  fun r _ => { r with data := fun i => if i = 0 then 7 else r.data i }

/-- Packet used by the C8 witness: a zero-length buffer, so any 4-byte
network-header load at offset 4 is out of bounds. -/
def pktW8 : nft_pktinfo := ⟨fun _ => 0, 0, 0, 0, 0, 0, 0, false⟩

/-- Witness for C8: the out-of-bounds load fails over to the generic path. -/
theorem nft_payload_fast_eval_oob_witness :
    nft_payload_fast_eval 1 4 4 0 regsInit pktW8 = none ∧
    nft_expr_eval (.payload_fast 1 4 4 0 gevalW8) regsInit pktW8 = gevalW8 regsInit pktW8 :=
  nft_payload_fast_eval_oob 1 4 4 0 gevalW8 regsInit pktW8 (by decide)

/-! ### Claim C9: namespace mismatch is an inert pass-through -/

/-- C9: when the packet's owning namespace differs from the base chain's,
nft_do_chain returns NF_ACCEPT at once: no rule is evaluated, no trace
event is emitted, the statistics delta is zero and no warning fires. -/
theorem nft_do_chain_ns_mismatch (rs : Ruleset) (bc : nft_base_chain)
    (pkt : nft_pktinfo) (regs0 : nft_regs) (traceEnabled : Bool) (fuel : Nat)
    (h : pkt.net ≠ bc.pnet) :
    nft_do_chain rs bc pkt regs0 traceEnabled fuel =
      some ⟨.nsMismatch NF_ACCEPT, 0, 0, [], [], false⟩ := by
  unfold nft_do_chain
  simp [h]

/-- Packet used by the C9 witness: owning namespace 5. -/
def pktW9 : nft_pktinfo := ⟨fun _ => 0, 0, 0, 0, 60, 5, 0, false⟩

/-- Base chain used by the C9 witness: namespace 0, policy NF_DROP. -/
def bcW9 : nft_base_chain := ⟨0, NF_DROP, 0⟩

/-- Witness for C9: a namespace-5 packet against a namespace-0 chain. -/
theorem nft_do_chain_ns_mismatch_witness :
    nft_do_chain rsEmpty bcW9 pktW9 regsInit false 3 =
      some ⟨.nsMismatch NF_ACCEPT, 0, 0, [], [], false⟩ :=
  nft_do_chain_ns_mismatch rsEmpty bcW9 pktW9 regsInit false 3 (by decide)

/-! ### Generation isolation helpers (claim C2) -/

/-- Every rule whose expressions the rule loop evaluates is active in the
sampled generation: its genmask bit at the cursor is clear (the skip at
line 150 filters the rest). -/
theorem nft_do_chain_rules_visited_active (pkt : nft_pktinfo) (tron : Bool)
    (gencursor : Nat) (c : ChainId) :
    ∀ (l : List nft_rule) (pos rulenum : Nat) (regs : nft_regs) (r : nft_rule),
      r ∈ (nft_do_chain_rules pkt tron gencursor c l pos rulenum regs).visited →
      r.genmask &&& (1 <<< gencursor) = 0 := by
  intro l
  induction l with
  | nil =>
    intro pos rulenum regs r hr
    simp [nft_do_chain_rules] at hr
  | cons a rest ih =>
    intro pos rulenum regs r hr
    simp only [nft_do_chain_rules] at hr
    by_cases hskip : a.genmask &&& (1 <<< gencursor) ≠ 0
    · rw [if_pos hskip] at hr
      exact ih _ _ _ r hr
    · rw [if_neg hskip] at hr
      have ha : a.genmask &&& (1 <<< gencursor) = 0 := by
        by_contra hne
        exact hskip hne
      by_cases hb : (nft_rule_eval_exprs a.exprs regs pkt).verdict.code = NFT_BREAK
      · rw [if_pos hb] at hr
        simp only [List.mem_cons] at hr
        rcases hr with hr | hr
        · subst hr; exact ha
        · exact ih _ _ _ r hr
      · rw [if_neg hb] at hr
        by_cases hc : (nft_rule_eval_exprs a.exprs regs pkt).verdict.code = NFT_CONTINUE
        · rw [if_pos hc] at hr
          simp only [List.mem_cons] at hr
          rcases hr with hr | hr
          · subst hr; exact ha
          · exact ih _ _ _ r hr
        · rw [if_neg hc] at hr
          simp only [List.mem_singleton] at hr
          subst hr; exact ha

/-- Every rule a whole outer round evaluates is active in the sampled
generation. -/
theorem nft_do_chain_step_visited_active (rs : Ruleset) (bc : nft_base_chain)
    (pkt : nft_pktinfo) (tron : Bool) (gencursor : Nat) (st : EvalState)
    (r : nft_rule)
    (hr : r ∈ (nft_do_chain_step rs bc pkt tron gencursor st).visitedRules) :
    r.genmask &&& (1 <<< gencursor) = 0 := by
  have hv : (nft_do_chain_step rs bc pkt tron gencursor st).visitedRules =
      (nft_do_chain_phase rs pkt tron gencursor st).visited := by
    simp only [nft_do_chain_step]
    repeat' split
    all_goals rfl
  rw [hv] at hr
  exact nft_do_chain_rules_visited_active pkt tron gencursor st.chain _ _ _ _ r hr

/-- Every rule evaluated anywhere during a traversal is active in the
generation sampled when the traversal started; the interpreter never
consults any other generation value. -/
theorem nft_do_chain_run_visited_active (rs : Ruleset) (bc : nft_base_chain)
    (pkt : nft_pktinfo) (tron : Bool) (gencursor : Nat) :
    ∀ (fuel : Nat) (st : EvalState) (res : RunResult),
      nft_do_chain_run rs bc pkt tron gencursor fuel st = some res →
      ∀ r ∈ res.visited, r.genmask &&& (1 <<< gencursor) = 0 := by
  intro fuel
  induction fuel with
  | zero =>
    intro st res h
    simp [nft_do_chain_run] at h
  | succ n ih =>
    intro st res h r hr
    rw [nft_do_chain_run] at h
    split at h
    case _ o p b evs vis w hstep =>
      cases h
      have := nft_do_chain_step_visited_active rs bc pkt tron gencursor st r
      rw [hstep] at this
      exact this hr
    case _ evs vis hstep =>
      cases h
      have := nft_do_chain_step_visited_active rs bc pkt tron gencursor st r
      rw [hstep] at this
      exact this hr
    case _ st1 evs vis w hstep =>
      split at h
      · exact absurd h (by simp)
      case _ r2 hrec =>
        cases h
        simp only [List.mem_append] at hr
        rcases hr with hr | hr
        · have := nft_do_chain_step_visited_active rs bc pkt tron gencursor st r
          rw [hstep] at this
          exact this hr
        · exact ih st1 r2 hrec r hr

/-- C2: nft_do_chain samples the generation cursor once, at entry (line
132), before visiting any rule, and the traversal never re-reads it: every
rule it evaluates has its genmask bit at that sampled cursor clear, i.e. a
rule not a member of the sampled generation is skipped and never
evaluated.  (In the source's encoding a SET genmask bit marks the rule
inactive in that generation, so the spec's membership bit is the
complement of the genmask bit.) -/
theorem nft_do_chain_generation_isolation (rs : Ruleset) (bc : nft_base_chain)
    (pkt : nft_pktinfo) (regs0 : nft_regs) (traceEnabled : Bool) (fuel : Nat) :
    (Option.map
      (fun res => res.visited.all fun r => r.genmask &&& (1 <<< pkt.gencursor) == 0)
      (nft_do_chain rs bc pkt regs0 traceEnabled fuel)).getD true = true := by
  unfold nft_do_chain
  split
  · simp
  · cases hrun : nft_do_chain_run rs bc pkt (traceEnabled && pkt.nfTrace)
        pkt.gencursor fuel ⟨bc.id, 0, 0, [], regs0⟩ with
    | none => simp [hrun]
    | some res =>
      show (res.visited.all fun r => r.genmask &&& (1 <<< pkt.gencursor) == 0) = true
      rw [List.all_eq_true]
      intro r hr
      rw [beq_iff_eq]
      exact nft_do_chain_run_visited_active rs bc pkt (traceEnabled && pkt.nfTrace)
        pkt.gencursor fuel _ res hrun r hr

/-! ### Shape of finished rounds (helpers for claims C6 and C10) -/

/-- A round that finishes does so either through the terminal-disposition
switch — returning a rule's verdict with a zero statistics delta — or
through the policy fallthrough — returning the base chain's policy with a
delta of one packet and the packet's length, its event list ending in a
policy-type event when tracing is on. -/
theorem nft_do_chain_step_done_shape (rs : Ruleset) (bc : nft_base_chain)
    (pkt : nft_pktinfo) (tron : Bool) (gencursor : Nat) (st : EvalState)
    (o : Outcome) (p b : Nat) (evs : List nft_trace_event)
    (vis : List nft_rule) (w : Bool)
    (h : nft_do_chain_step rs bc pkt tron gencursor st = .done o p b evs vis w) :
    ((∃ c, o = .fromRule c) ∧ p = 0 ∧ b = 0) ∨
    (o = .fromPolicy bc.policy ∧ p = 1 ∧ b = pkt.len ∧
      (tron = true → ∃ pre, evs = pre ++ [⟨nft_trace_type.policy, bc.id, -1⟩])) := by
  simp only [nft_do_chain_step] at h
  split at h
  · cases h
    exact Or.inl ⟨⟨_, rfl⟩, rfl, rfl⟩
  · split at h
    · split at h
      · exact StepRes.noConfusion h
      · exact StepRes.noConfusion h
    · split at h
      · exact StepRes.noConfusion h
      · split at h
        · exact StepRes.noConfusion h
        · cases h
          refine Or.inr ⟨rfl, rfl, rfl, fun htron => ?_⟩
          subst htron
          exact ⟨_, by
            rw [show nft_trace_events true nft_trace_type.policy bc.id (-1) =
                [⟨nft_trace_type.policy, bc.id, -1⟩] from rfl]⟩

/-- Statistics and policy discipline over a whole run: a terminal verdict
from a rule or the BUG abort leaves the counters untouched; only the
policy fallthrough touches them, by exactly one packet and the packet's
length, returning the base chain's policy and closing the trace with a
policy event; the run never produces a namespace-mismatch outcome. -/
theorem nft_do_chain_run_shape (rs : Ruleset) (bc : nft_base_chain)
    (pkt : nft_pktinfo) (tron : Bool) (gencursor : Nat) :
    ∀ (fuel : Nat) (st : EvalState) (res : RunResult),
      nft_do_chain_run rs bc pkt tron gencursor fuel st = some res →
      ((∀ c, res.outcome = .fromRule c → res.pkts = 0 ∧ res.bytes = 0) ∧
       (res.outcome = .stackBug → res.pkts = 0 ∧ res.bytes = 0) ∧
       (∀ q, res.outcome = .fromPolicy q →
          q = bc.policy ∧ res.pkts = 1 ∧ res.bytes = pkt.len ∧
          (tron = true →
            ∃ pre, res.events = pre ++ [⟨nft_trace_type.policy, bc.id, -1⟩])) ∧
       (∀ c, res.outcome ≠ .nsMismatch c)) := by
  intro fuel
  induction fuel with
  | zero =>
    intro st res h
    simp [nft_do_chain_run] at h
  | succ n ih =>
    intro st res h
    rw [nft_do_chain_run] at h
    split at h
    case _ o p b evs vis w hstep =>
      cases h
      rcases nft_do_chain_step_done_shape rs bc pkt tron gencursor st o p b evs vis w
          hstep with ⟨⟨c, hc⟩, hp, hb⟩ | ⟨ho, hp, hb, hev⟩
      · subst hc hp hb
        exact ⟨fun c' _ => ⟨rfl, rfl⟩, fun hsb => Outcome.noConfusion hsb,
          fun q hq => Outcome.noConfusion hq, fun c' hns => Outcome.noConfusion hns⟩
      · subst ho hp hb
        refine ⟨fun c' hc' => Outcome.noConfusion hc', fun hsb => Outcome.noConfusion hsb,
          fun q hq => ?_, fun c' hns => Outcome.noConfusion hns⟩
        cases hq
        exact ⟨rfl, rfl, rfl, hev⟩
    case _ evs vis hstep =>
      cases h
      exact ⟨fun c' hc' => Outcome.noConfusion hc', fun _ => ⟨rfl, rfl⟩,
        fun q hq => Outcome.noConfusion hq, fun c' hns => Outcome.noConfusion hns⟩
    case _ st1 evs vis w hstep =>
      split at h
      · exact absurd h (by simp)
      case _ r2 hrec =>
        cases h
        rcases ih st1 r2 hrec with ⟨ih1, ih2, ih3, ih4⟩
        refine ⟨fun c hc => ih1 c hc, fun hsb => ih2 hsb, fun q hq => ?_, fun c hns => ih4 c hns⟩
        rcases ih3 q hq with ⟨h1, h2, h3, h4⟩
        refine ⟨h1, h2, h3, fun htron => ?_⟩
        rcases h4 htron with ⟨pre, hpre⟩
        exact ⟨evs ++ pre, by rw [hpre, List.append_assoc]⟩

/-! ### Claim C6: policy fallthrough with stats and policy trace event -/

/-- C6: whenever a traversal finishes through the end-of-chain / Return
path with an empty jump stack — that is, its outcome is the policy
fallthrough — nft_do_chain returns the base chain's configured default
policy, increments the base chain's counters by exactly one packet and the
packet's byte length, and (when tracing is enabled for the packet) its
trace ends with a policy-type event.  In particular a packet matching no
rule in a base chain with policy NF_DROP yields NF_DROP. -/
theorem nft_do_chain_policy_fallthrough (rs : Ruleset) (bc : nft_base_chain)
    (pkt : nft_pktinfo) (regs0 : nft_regs) (traceEnabled : Bool) (fuel : Nat)
    (res : RunResult) (q : Nat)
    (h : nft_do_chain rs bc pkt regs0 traceEnabled fuel = some res)
    (hq : res.outcome = .fromPolicy q) :
    q = bc.policy ∧ res.pkts = 1 ∧ res.bytes = pkt.len ∧
    ((traceEnabled && pkt.nfTrace) = true →
      ∃ pre, res.events = pre ++ [⟨nft_trace_type.policy, bc.id, -1⟩]) := by
  unfold nft_do_chain at h
  split at h
  · cases h
    exact absurd hq (by simp)
  · exact (nft_do_chain_run_shape rs bc pkt (traceEnabled && pkt.nfTrace)
      pkt.gencursor fuel _ res h).2.2.1 q hq

/-- Base chain used by several witnesses: id 0, policy NF_DROP, namespace 0. -/
def bcDrop : nft_base_chain := ⟨0, NF_DROP, 0⟩

/-- Run result of the C6 witness: no rules, so the policy path fires. -/
def resC6 : RunResult := ⟨.fromPolicy NF_DROP, 1, 60, [], [], false⟩

/-- Witness for C6: the empty base chain with policy NF_DROP drops the
packet through the policy path with a one-packet statistics delta. -/
theorem nft_do_chain_policy_fallthrough_witness :
    NF_DROP = bcDrop.policy ∧ resC6.pkts = 1 ∧ resC6.bytes = pkt0.len ∧
    ((false && pkt0.nfTrace) = true →
      ∃ pre, resC6.events = pre ++ [⟨nft_trace_type.policy, bcDrop.id, -1⟩]) :=
  nft_do_chain_policy_fallthrough rsEmpty bcDrop pkt0 regsInit false 1 resC6 NF_DROP
    rfl rfl

/-! ### Claim C10: terminal dispositions do not touch the counters -/

/-- C10: a traversal that ends because a rule produced a terminal
disposition leaves the base chain's packet/byte counters untouched; the
counters move only on the default-policy fallthrough path. -/
theorem nft_do_chain_terminal_no_stats (rs : Ruleset) (bc : nft_base_chain)
    (pkt : nft_pktinfo) (regs0 : nft_regs) (traceEnabled : Bool) (fuel : Nat)
    (res : RunResult)
    (h : nft_do_chain rs bc pkt regs0 traceEnabled fuel = some res) :
    (∀ c, res.outcome = .fromRule c → res.pkts = 0 ∧ res.bytes = 0) ∧
    ((res.pkts ≠ 0 ∨ res.bytes ≠ 0) → res.outcome = .fromPolicy bc.policy) := by
  unfold nft_do_chain at h
  split at h
  · cases h
    refine ⟨fun c hc => absurd hc (by simp), fun hne => ?_⟩
    rcases hne with hne | hne <;> exact absurd rfl hne
  · have S := nft_do_chain_run_shape rs bc pkt (traceEnabled && pkt.nfTrace)
      pkt.gencursor fuel _ res h
    refine ⟨S.1, fun hne => ?_⟩
    cases ho : res.outcome with
    | fromRule c =>
      rcases S.1 c ho with ⟨h1, h2⟩
      rw [h1, h2] at hne
      rcases hne with hne | hne <;> exact absurd rfl hne
    | fromPolicy q =>
      rcases S.2.2.1 q ho with ⟨hq, _, _, _⟩
      rw [hq]
    | nsMismatch c => exact absurd ho (S.2.2.2 c)
    | stackBug =>
      rcases S.2.1 ho with ⟨h1, h2⟩
      rw [h1, h2] at hne
      rcases hne with hne | hne <;> exact absurd rfl hne

/-- Rule set of the C10 witness: one rule that issues NF_DROP directly. -/
def rsC10 : Ruleset := ⟨fun c => if c = 0 then [ruleVerdict NF_DROP 0] else []⟩

/-- Base chain of the C10 witness: policy NF_ACCEPT. -/
def bcAccept : nft_base_chain := ⟨0, NF_ACCEPT, 0⟩

/-- Run result of the C10 witness: a rule-issued NF_DROP, zero stats. -/
def resC10 : RunResult := ⟨.fromRule NF_DROP, 0, 0, [], [ruleVerdict NF_DROP 0], false⟩

/-- Witness for C10: a rule-issued drop leaves the counters at zero. -/
theorem nft_do_chain_terminal_no_stats_witness :
    (∀ c, resC10.outcome = .fromRule c → resC10.pkts = 0 ∧ resC10.bytes = 0) ∧
    ((resC10.pkts ≠ 0 ∨ resC10.bytes ≠ 0) → resC10.outcome = .fromPolicy bcAccept.policy) :=
  nft_do_chain_terminal_no_stats rsC10 bcAccept pkt0 regsInit false 1 resC10 rfl

/-! ### Claim C4: the jump-stack overflow guard -/

/-- C4: a Jump verdict arriving with the jump stack already at
NFT_JUMP_STACK_SIZE frames hits the BUG_ON guard (line 189) — the
traversal aborts loudly — and no frame is written; conversely every
continuing round keeps the stack within capacity, because the push is
guarded: with a bounded stack on entry, every stack write stays in
bounds. -/
theorem nft_do_chain_jump_stack_guard (rs : Ruleset) (bc : nft_base_chain)
    (pkt : nft_pktinfo) (tron : Bool) (gencursor : Nat) (st : EvalState)
    (ph : RulePhase) (hph : nft_do_chain_phase rs pkt tron gencursor st = ph) :
    (ph.regs.verdict.code = NFT_JUMP → NFT_JUMP_STACK_SIZE ≤ st.stack.length →
      nft_do_chain_step rs bc pkt tron gencursor st = .stackBug ph.events ph.visited) ∧
    (∀ st1 evs vis w,
      nft_do_chain_step rs bc pkt tron gencursor st = .cont st1 evs vis w →
      st1.stack.length ≤ max NFT_JUMP_STACK_SIZE st.stack.length) := by
  subst hph
  constructor
  · intro hv hlen
    simp only [nft_do_chain_step]
    rw [hv, if_pos hlen]
    rfl
  · intro st1 evs vis w h
    simp only [nft_do_chain_step] at h
    split at h
    · exact StepRes.noConfusion h
    · split at h
      · split at h
        · exact StepRes.noConfusion h
        case _ hlen =>
          cases h
          simp only [List.length_cons]
          have := Nat.lt_of_not_le hlen
          simp only [NFT_JUMP_STACK_SIZE] at *
          omega
      · split at h
        · cases h
          exact le_max_right _ _
        · split at h
          case _ f rest heq =>
            cases h
            have hle : rest.length ≤ st.stack.length := by
              rw [heq]
              simp
            exact le_trans hle (le_max_right _ _)
          · exact StepRes.noConfusion h

/-- Rule set of the C4 witness: chain 0 jumps to itself. -/
def rsC4 : Ruleset := ⟨fun c => if c = 0 then [ruleVerdict NFT_JUMP 0] else []⟩

/-- State of the C4 witness: the jump stack already holds 16 frames. -/
def stC4 : EvalState := ⟨0, 0, 0, List.replicate 16 ⟨0, 0, 0⟩, regsInit⟩

/-- Witness for C4: a jump with a full stack aborts through the BUG_ON. -/
theorem nft_do_chain_jump_stack_guard_witness :
    nft_do_chain_step rsC4 bcAccept pkt0 false 0 stC4 =
      .stackBug (nft_do_chain_phase rsC4 pkt0 false 0 stC4).events
        (nft_do_chain_phase rsC4 pkt0 false 0 stC4).visited :=
  (nft_do_chain_jump_stack_guard rsC4 bcAccept pkt0 false 0 stC4
    (nft_do_chain_phase rsC4 pkt0 false 0 stC4) rfl).1 (by decide) (by decide)

/-! ### Claim C5: jump pushes a resume frame, goto does not -/

/-- C5: a Jump verdict pushes one frame recording the current chain and
the jumping rule's position and switches to the target chain's first rule;
a Goto verdict switches chains without pushing any frame; and a Return
verdict (or running off the end of a chain, which arrives here as
NFT_CONTINUE) with a non-empty stack pops the top frame and resumes the
recorded chain at the rule immediately after the recorded position. -/
theorem nft_do_chain_jump_goto_frames (rs : Ruleset) (bc : nft_base_chain)
    (pkt : nft_pktinfo) (tron : Bool) (gencursor : Nat) (st : EvalState)
    (ph : RulePhase) (hph : nft_do_chain_phase rs pkt tron gencursor st = ph) :
    (ph.regs.verdict.code = NFT_JUMP → st.stack.length < NFT_JUMP_STACK_SIZE →
      nft_do_chain_step rs bc pkt tron gencursor st =
        .cont ⟨ph.regs.verdict.chain, 0, 0, ⟨st.chain, ph.pos, ph.rulenum⟩ :: st.stack, ph.regs⟩
          (ph.events ++ nft_trace_events tron .rule st.chain (Int.ofNat ph.rulenum))
          ph.visited false) ∧
    (ph.regs.verdict.code = NFT_GOTO →
      nft_do_chain_step rs bc pkt tron gencursor st =
        .cont ⟨ph.regs.verdict.chain, 0, 0, st.stack, ph.regs⟩
          (ph.events ++ nft_trace_events tron .rule st.chain (Int.ofNat ph.rulenum))
          ph.visited false) ∧
    (ph.regs.verdict.code = NFT_RETURN → ∀ f rest, st.stack = f :: rest →
      nft_do_chain_step rs bc pkt tron gencursor st =
        .cont ⟨f.chain, f.pos + 1, f.rulenum, rest, ph.regs⟩
          (ph.events ++ nft_trace_events tron .ret st.chain (Int.ofNat ph.rulenum))
          ph.visited false) ∧
    (ph.regs.verdict.code = NFT_CONTINUE → ∀ f rest, st.stack = f :: rest →
      nft_do_chain_step rs bc pkt tron gencursor st =
        .cont ⟨f.chain, f.pos + 1, f.rulenum, rest, ph.regs⟩
          (ph.events ++ nft_trace_events tron .ret st.chain (Int.ofNat (ph.rulenum + 1)))
          ph.visited false) := by
  subst hph
  refine ⟨?_, ?_, ?_, ?_⟩
  · intro hv hlen
    simp only [nft_do_chain_step]
    rw [hv, if_neg (Nat.not_le.mpr hlen)]
    rfl
  · intro hv
    simp only [nft_do_chain_step]
    rw [hv]
    rfl
  · intro hv f rest hst
    simp only [nft_do_chain_step]
    rw [hv, hst]
    rfl
  · intro hv f rest hst
    simp only [nft_do_chain_step]
    rw [hv, hst]
    rfl

/-- Rule set of the C5 witness: chain 0 is one Jump to chain 1; chain 1 is
empty, so it runs off its end at once. -/
def rsC5 : Ruleset := ⟨fun c => if c = 0 then [ruleVerdict NFT_JUMP 1] else []⟩

/-- Goto variant of the C5 witness rule set. -/
def rsC5g : Ruleset := ⟨fun c => if c = 0 then [ruleVerdict NFT_GOTO 1] else []⟩

/-- Initial C5 witness state, at the base chain. -/
def stC5A : EvalState := ⟨0, 0, 0, [], regsInit⟩

/-- C5 witness state inside the jumped-to chain, one frame on the stack
recording chain 0, position 0, rulenum 1. -/
def stC5B : EvalState :=
  ⟨1, 0, 0, [⟨0, 0, 1⟩], (nft_do_chain_phase rsC5 pkt0 false 0 stC5A).regs⟩

/-- Witness for C5: the jump pushes the frame for chain 0 at position 0;
the goto variant pushes nothing; running off the end of chain 1 pops that
frame and resumes chain 0 at position 1, immediately after the jump. -/
theorem nft_do_chain_jump_goto_frames_witness :
    (nft_do_chain_step rsC5 bcAccept pkt0 false 0 stC5A =
      .cont ⟨(nft_do_chain_phase rsC5 pkt0 false 0 stC5A).regs.verdict.chain, 0, 0,
          ⟨stC5A.chain, (nft_do_chain_phase rsC5 pkt0 false 0 stC5A).pos,
            (nft_do_chain_phase rsC5 pkt0 false 0 stC5A).rulenum⟩ :: stC5A.stack,
          (nft_do_chain_phase rsC5 pkt0 false 0 stC5A).regs⟩
        ((nft_do_chain_phase rsC5 pkt0 false 0 stC5A).events ++
          nft_trace_events false .rule stC5A.chain
            (Int.ofNat (nft_do_chain_phase rsC5 pkt0 false 0 stC5A).rulenum))
        (nft_do_chain_phase rsC5 pkt0 false 0 stC5A).visited false) ∧
    (nft_do_chain_step rsC5g bcAccept pkt0 false 0 stC5A =
      .cont ⟨(nft_do_chain_phase rsC5g pkt0 false 0 stC5A).regs.verdict.chain, 0, 0,
          stC5A.stack, (nft_do_chain_phase rsC5g pkt0 false 0 stC5A).regs⟩
        ((nft_do_chain_phase rsC5g pkt0 false 0 stC5A).events ++
          nft_trace_events false .rule stC5A.chain
            (Int.ofNat (nft_do_chain_phase rsC5g pkt0 false 0 stC5A).rulenum))
        (nft_do_chain_phase rsC5g pkt0 false 0 stC5A).visited false) ∧
    (nft_do_chain_step rsC5 bcAccept pkt0 false 0 stC5B =
      .cont ⟨(0 : ChainId), 0 + 1, 1, [], (nft_do_chain_phase rsC5 pkt0 false 0 stC5B).regs⟩
        ((nft_do_chain_phase rsC5 pkt0 false 0 stC5B).events ++
          nft_trace_events false .ret stC5B.chain
            (Int.ofNat ((nft_do_chain_phase rsC5 pkt0 false 0 stC5B).rulenum + 1)))
        (nft_do_chain_phase rsC5 pkt0 false 0 stC5B).visited false) :=
  ⟨(nft_do_chain_jump_goto_frames rsC5 bcAccept pkt0 false 0 stC5A
      (nft_do_chain_phase rsC5 pkt0 false 0 stC5A) rfl).1 (by decide) (by decide),
   (nft_do_chain_jump_goto_frames rsC5g bcAccept pkt0 false 0 stC5A
      (nft_do_chain_phase rsC5g pkt0 false 0 stC5A) rfl).2.1 (by decide),
   (nft_do_chain_jump_goto_frames rsC5 bcAccept pkt0 false 0 stC5B
      (nft_do_chain_phase rsC5 pkt0 false 0 stC5B) rfl).2.2.2 (by decide) ⟨0, 0, 1⟩ [] rfl⟩

/-! ### Claim C1: handling of unrecognized verdict codes -/

/-- C1 (amended): when a rule's evaluation leaves the verdict register
holding a code outside the recognized set — its low byte is none of
NF_ACCEPT / NF_DROP / NF_QUEUE and the full code is none of NFT_JUMP,
NFT_GOTO, NFT_CONTINUE, NFT_RETURN — nft_do_chain fires WARN_ON(1) (the
loud diagnostic) but does NOT abort with NF_DROP: it handles the bogus
code exactly like a Return, popping the jump stack and continuing the
traversal when the stack is non-empty, and otherwise falling through to
the policy path — statistics update included — returning the base chain's
configured policy. -/
theorem nft_do_chain_unknown_verdict (rs : Ruleset) (bc : nft_base_chain)
    (pkt : nft_pktinfo) (tron : Bool) (gencursor : Nat) (st : EvalState)
    (ph : RulePhase) (hph : nft_do_chain_phase rs pkt tron gencursor st = ph)
    (hmask : ¬(ph.regs.verdict.code &&& NF_VERDICT_MASK = NF_ACCEPT ∨
        ph.regs.verdict.code &&& NF_VERDICT_MASK = NF_DROP ∨
        ph.regs.verdict.code &&& NF_VERDICT_MASK = NF_QUEUE))
    (hj : ph.regs.verdict.code ≠ NFT_JUMP) (hg : ph.regs.verdict.code ≠ NFT_GOTO)
    (hc : ph.regs.verdict.code ≠ NFT_CONTINUE)
    (hr : ph.regs.verdict.code ≠ NFT_RETURN) :
    (∀ f rest, st.stack = f :: rest →
      nft_do_chain_step rs bc pkt tron gencursor st =
        .cont ⟨f.chain, f.pos + 1, f.rulenum, rest, ph.regs⟩ ph.events ph.visited true) ∧
    (st.stack = [] →
      nft_do_chain_step rs bc pkt tron gencursor st =
        .done (.fromPolicy bc.policy) 1 pkt.len
          (ph.events ++ nft_trace_events tron .policy bc.id (-1)) ph.visited true) := by
  subst hph
  constructor
  · intro f rest hst
    simp only [nft_do_chain_step]
    rw [if_neg hmask, if_neg hj, if_neg hg, if_neg hc, if_neg hr, if_neg hc, if_neg hr, hst,
      List.append_nil]
  · intro hst
    simp only [nft_do_chain_step]
    rw [if_neg hmask, if_neg hj, if_neg hg, if_neg hc, if_neg hr, if_neg hc, if_neg hr, hst,
      List.append_nil]

/-- Rule set of the C1 counterexample and witness: one rule whose
expression leaves NF_STOLEN (2) in the verdict register — a code
nft_do_chain does not recognize. -/
def rsC1 : Ruleset := ⟨fun c => if c = 0 then [ruleVerdict NF_STOLEN 0] else []⟩

/-- Counterexample to C1 as stated: against a base chain with policy
NF_ACCEPT, the unrecognized code is not turned into an NF_DROP abort — the
traversal runs to the policy fallthrough (WARN_ON fired, counters
updated) and returns NF_ACCEPT, the chain's policy. -/
theorem nft_do_chain_unknown_verdict_counterexample :
    Option.map (fun r => (r.outcome, r.warned))
        (nft_do_chain rsC1 bcAccept pkt0 regsInit false 1) =
      some (.fromPolicy NF_ACCEPT, true) ∧ NF_ACCEPT ≠ NF_DROP :=
  ⟨by decide, by decide⟩

/-- Witness for the amended C1: with an empty stack the unrecognized
NF_STOLEN verdict warns and falls through to the policy path. -/
theorem nft_do_chain_unknown_verdict_witness :
    nft_do_chain_step rsC1 bcAccept pkt0 false 0 stC5A =
      .done (.fromPolicy bcAccept.policy) 1 pkt0.len
        ((nft_do_chain_phase rsC1 pkt0 false 0 stC5A).events ++
          nft_trace_events false .policy bcAccept.id (-1))
        (nft_do_chain_phase rsC1 pkt0 false 0 stC5A).visited true :=
  (nft_do_chain_unknown_verdict rsC1 bcAccept pkt0 false 0 stC5A
    (nft_do_chain_phase rsC1 pkt0 false 0 stC5A) rfl (by decide) (by decide) (by decide)
    (by decide) (by decide)).2 rfl

/-! ### Claim C3: termination and the step bound -/

/-- Rule set of the C3 counterexample: chain 0 holds two Jump rules to
chain 1; chain 1 holds twenty no-op rules.  Chain 1 is traversed once per
jump, so the traversal evaluates 2 + 2 * 20 = 42 rules while
total_visible_rules over the reachable chains is 22. -/
def rsC3 : Ruleset :=
  ⟨fun c => if c = 0 then [ruleVerdict NFT_JUMP 1, ruleVerdict NFT_JUMP 1]
    else if c = 1 then List.replicate 20 ruleEmpty else []⟩

/-- Counterexample to C3 as stated: the traversal terminates but takes 42
rule-evaluation steps, exceeding total_visible_rules + NFT_JUMP_STACK_SIZE
= 22 + 16 = 38, because a chain reachable from two rules is walked twice. -/
theorem nft_do_chain_step_bound_counterexample :
    Option.map (fun r => r.visited.length)
        (nft_do_chain rsC3 bcAccept pkt0 regsInit false 5) = some 42 ∧
    total_visible_rules rsC3 [0, 1] pkt0.gencursor + NFT_JUMP_STACK_SIZE = 38 ∧
    ¬(42 ≤ 38) :=
  ⟨by decide, by decide, by decide⟩

/-- Weight of a suspended frame: the rules remaining after its resume
position, scaled by the rank of its chain. -/
def frame_weight (rs : Ruleset) (B : Nat) (rk : ChainId → Nat)
    (f : nft_jumpstack) : Nat :=
  ((rs.chains f.chain).length - (f.pos + 1)) * B ^ rk f.chain

/-- Termination measure of an interpreter state: remaining work of the
current chain plus all suspended frames, with chains weighted
exponentially by rank, plus the stack depth as a tie breaker for pops. -/
def state_measure (rs : Ruleset) (B : Nat) (rk : ChainId → Nat)
    (st : EvalState) : Nat :=
  2 * (((rs.chains st.chain).length - st.pos) * B ^ rk st.chain
    + (st.stack.map (frame_weight rs B rk)).sum) + st.stack.length

/-- The rule loop's stop position moves forward, stays within the list,
and — when it stopped because of a non-CONTINUE verdict — points at a real
rule strictly inside the list. -/
theorem nft_do_chain_rules_pos_bounds (pkt : nft_pktinfo) (tron : Bool)
    (gencursor : Nat) (c : ChainId) :
    ∀ (l : List nft_rule) (pos rulenum : Nat) (regs : nft_regs),
      regs.verdict.code = NFT_CONTINUE →
      pos ≤ (nft_do_chain_rules pkt tron gencursor c l pos rulenum regs).pos ∧
      (nft_do_chain_rules pkt tron gencursor c l pos rulenum regs).pos ≤ pos + l.length ∧
      ((nft_do_chain_rules pkt tron gencursor c l pos rulenum regs).regs.verdict.code ≠
          NFT_CONTINUE →
        (nft_do_chain_rules pkt tron gencursor c l pos rulenum regs).pos < pos + l.length) := by
  intro l
  induction l with
  | nil =>
    intro pos rulenum regs hcode
    refine ⟨le_refl _, by simp [nft_do_chain_rules], fun hne => ?_⟩
    exact absurd (by simp [nft_do_chain_rules, hcode]) hne
  | cons a rest ih =>
    intro pos rulenum regs hcode
    simp only [nft_do_chain_rules]
    by_cases hskip : a.genmask &&& (1 <<< gencursor) ≠ 0
    · rw [if_pos hskip]
      rcases ih (pos + 1) rulenum regs hcode with ⟨h1, h2, h3⟩
      refine ⟨by omega, by simp only [List.length_cons]; omega, fun hne => ?_⟩
      have := h3 hne
      simp only [List.length_cons]
      omega
    · rw [if_neg hskip]
      by_cases hb : (nft_rule_eval_exprs a.exprs regs pkt).verdict.code = NFT_BREAK
      · rw [if_pos hb]
        dsimp only
        rcases ih (pos + 1) (rulenum + 1)
          ⟨⟨NFT_CONTINUE, (nft_rule_eval_exprs a.exprs regs pkt).verdict.chain⟩,
            (nft_rule_eval_exprs a.exprs regs pkt).data⟩ rfl with ⟨h1, h2, h3⟩
        refine ⟨by omega, by simp only [List.length_cons]; omega, fun hne => ?_⟩
        have := h3 hne
        simp only [List.length_cons]
        omega
      · rw [if_neg hb]
        by_cases hc : (nft_rule_eval_exprs a.exprs regs pkt).verdict.code = NFT_CONTINUE
        · rw [if_pos hc]
          dsimp only
          rcases ih (pos + 1) (rulenum + 1) _ hc with ⟨h1, h2, h3⟩
          refine ⟨by omega, by simp only [List.length_cons]; omega, fun hne => ?_⟩
          have := h3 hne
          simp only [List.length_cons]
          omega
        · rw [if_neg hc]
          dsimp only
          refine ⟨le_refl _, by simp only [List.length_cons]; omega, fun _ => ?_⟩
          simp only [List.length_cons]
          omega

/-- Key pow inequality behind the measure: a whole lower-ranked chain
weighs strictly less than a single rule of the jumping chain's rank. -/
theorem target_weight_lt {B rt rc lt : Nat} (hlt : lt + 2 ≤ B) (hr : rt < rc) :
    lt * B ^ rt + 1 ≤ B ^ rc := by
  have hbpos : 1 ≤ B ^ rt := Nat.one_le_pow _ _ (by omega)
  have h1 : (lt + 2) * B ^ rt ≤ B * B ^ rt := Nat.mul_le_mul_right _ hlt
  rw [Nat.add_mul] at h1
  have h2 : B * B ^ rt = B ^ (rt + 1) := (pow_succ' B rt).symm
  have h3 : B ^ (rt + 1) ≤ B ^ rc := Nat.pow_le_pow_right (by omega) (by omega)
  omega

/-- Every continuing round strictly decreases the measure, provided chain
lengths are bounded by B - 2 and a rank function decreases across every
runtime Jump/Goto target. -/
theorem nft_do_chain_step_measure_lt (rs : Ruleset) (bc : nft_base_chain)
    (pkt : nft_pktinfo) (tron : Bool) (gencursor : Nat) (B : Nat)
    (rk : ChainId → Nat)
    (hB : ∀ c, (rs.chains c).length + 2 ≤ B)
    (hrk : ∀ st : EvalState,
      ((nft_do_chain_phase rs pkt tron gencursor st).regs.verdict.code = NFT_JUMP ∨
        (nft_do_chain_phase rs pkt tron gencursor st).regs.verdict.code = NFT_GOTO) →
      rk (nft_do_chain_phase rs pkt tron gencursor st).regs.verdict.chain < rk st.chain)
    (st st1 : EvalState) (evs : List nft_trace_event) (vis : List nft_rule) (w : Bool)
    (h : nft_do_chain_step rs bc pkt tron gencursor st = .cont st1 evs vis w) :
    state_measure rs B rk st1 < state_measure rs B rk st := by
  have hpb : st.pos ≤ (nft_do_chain_phase rs pkt tron gencursor st).pos ∧
      (nft_do_chain_phase rs pkt tron gencursor st).pos ≤
        st.pos + ((rs.chains st.chain).drop st.pos).length ∧
      ((nft_do_chain_phase rs pkt tron gencursor st).regs.verdict.code ≠ NFT_CONTINUE →
        (nft_do_chain_phase rs pkt tron gencursor st).pos <
          st.pos + ((rs.chains st.chain).drop st.pos).length) :=
    nft_do_chain_rules_pos_bounds pkt tron gencursor st.chain
      ((rs.chains st.chain).drop st.pos) st.pos st.rulenum (resetVerdict st.regs) rfl
  rw [List.length_drop] at hpb
  obtain ⟨hp1, hp2, hp3⟩ := hpb
  simp only [nft_do_chain_step] at h
  split at h
  · exact StepRes.noConfusion h
  · split at h
    case isTrue hvj =>
      split at h
      · exact StepRes.noConfusion h
      case isFalse hlen =>
        cases h
        have hrkt : rk ((nft_do_chain_phase rs pkt tron gencursor st).regs.verdict.chain) <
            rk st.chain := hrk st (Or.inl hvj)
        have hkey : (rs.chains
              ((nft_do_chain_phase rs pkt tron gencursor st).regs.verdict.chain)).length *
            B ^ rk ((nft_do_chain_phase rs pkt tron gencursor st).regs.verdict.chain) + 1 ≤
            B ^ rk st.chain :=
          target_weight_lt (hB _) hrkt
        have hpos := hp3 (by rw [hvj]; decide)
        have hmm : ((rs.chains st.chain).length -
              ((nft_do_chain_phase rs pkt tron gencursor st).pos + 1)) + 1 ≤
            (rs.chains st.chain).length - st.pos := by omega
        have hmul := Nat.mul_le_mul_right (B ^ rk st.chain) hmm
        rw [Nat.add_mul, one_mul] at hmul
        simp only [state_measure, frame_weight, List.map_cons, List.sum_cons,
          List.length_cons, Nat.sub_zero]
        linarith [hkey, hmul]
    case isFalse hnj =>
      split at h
      case isTrue hvg =>
        cases h
        have hrkt : rk ((nft_do_chain_phase rs pkt tron gencursor st).regs.verdict.chain) <
            rk st.chain := hrk st (Or.inr hvg)
        have hkey : (rs.chains
              ((nft_do_chain_phase rs pkt tron gencursor st).regs.verdict.chain)).length *
            B ^ rk ((nft_do_chain_phase rs pkt tron gencursor st).regs.verdict.chain) + 1 ≤
            B ^ rk st.chain :=
          target_weight_lt (hB _) hrkt
        have hpos := hp3 (by rw [hvg]; decide)
        have hmm : 1 ≤ (rs.chains st.chain).length - st.pos := by omega
        have hmul := Nat.mul_le_mul_right (B ^ rk st.chain) hmm
        rw [one_mul] at hmul
        simp only [state_measure, frame_weight, List.map_cons, List.sum_cons,
          List.length_cons, Nat.sub_zero]
        linarith [hkey, hmul]
      case isFalse hng =>
        split at h
        case _ f rest heq =>
          cases h
          rw [state_measure, state_measure, heq]
          simp only [frame_weight, List.map_cons, List.sum_cons, List.length_cons]
          have hnn : 0 ≤ ((rs.chains st.chain).length - st.pos) * B ^ rk st.chain :=
            Nat.zero_le _
          linarith [hnn]
        · exact StepRes.noConfusion h

/-- Fuel one more than the measure always suffices: the run returns a
result instead of running out. -/
theorem nft_do_chain_run_terminates (rs : Ruleset) (bc : nft_base_chain)
    (pkt : nft_pktinfo) (tron : Bool) (gencursor : Nat) (B : Nat)
    (rk : ChainId → Nat)
    (hB : ∀ c, (rs.chains c).length + 2 ≤ B)
    (hrk : ∀ st : EvalState,
      ((nft_do_chain_phase rs pkt tron gencursor st).regs.verdict.code = NFT_JUMP ∨
        (nft_do_chain_phase rs pkt tron gencursor st).regs.verdict.code = NFT_GOTO) →
      rk (nft_do_chain_phase rs pkt tron gencursor st).regs.verdict.chain < rk st.chain) :
    ∀ (m : Nat) (st : EvalState), state_measure rs B rk st ≤ m →
      (nft_do_chain_run rs bc pkt tron gencursor (m + 1) st).isSome = true := by
  intro m
  induction m with
  | zero =>
    intro st hm
    rw [nft_do_chain_run]
    split
    · rfl
    · rfl
    case _ st1 evs vis w hstep =>
      exfalso
      have := nft_do_chain_step_measure_lt rs bc pkt tron gencursor B rk hB hrk
        st st1 evs vis w hstep
      omega
  | succ n ih =>
    intro st hm
    rw [nft_do_chain_run]
    split
    · rfl
    · rfl
    case _ st1 evs vis w hstep =>
      have hlt := nft_do_chain_step_measure_lt rs bc pkt tron gencursor B rk hB hrk
        st st1 evs vis w hstep
      have hs := ih st1 (by omega)
      cases hrec : nft_do_chain_run rs bc pkt tron gencursor (n + 1) st1 with
      | none => rw [hrec] at hs; exact absurd hs (by simp)
      | some r => rfl

/-- C3 (amended): the step bound total_visible_rules + jump_stack_capacity
does not hold on the code (see the counterexample: a chain jumped to from
two rules is traversed twice); what holds is termination under the
rule-set discipline the control plane enforces: when a rank function on
chains strictly decreases across every Jump/Goto target a traversal can
produce — no chain reachable from itself — and chain lengths are bounded,
some finite fuel makes nft_do_chain return a result. -/
theorem nft_do_chain_terminates_ranked (rs : Ruleset) (bc : nft_base_chain)
    (pkt : nft_pktinfo) (regs0 : nft_regs) (traceEnabled : Bool) (B : Nat)
    (rk : ChainId → Nat)
    (hB : ∀ c, (rs.chains c).length + 2 ≤ B)
    (hrk : ∀ st : EvalState,
      ((nft_do_chain_phase rs pkt (traceEnabled && pkt.nfTrace) pkt.gencursor
          st).regs.verdict.code = NFT_JUMP ∨
        (nft_do_chain_phase rs pkt (traceEnabled && pkt.nfTrace) pkt.gencursor
          st).regs.verdict.code = NFT_GOTO) →
      rk (nft_do_chain_phase rs pkt (traceEnabled && pkt.nfTrace) pkt.gencursor
          st).regs.verdict.chain < rk st.chain) :
    ∃ fuel, (nft_do_chain rs bc pkt regs0 traceEnabled fuel).isSome = true := by
  by_cases hns : pkt.net ≠ bc.pnet
  · refine ⟨1, ?_⟩
    unfold nft_do_chain
    rw [if_pos hns]
    rfl
  · refine ⟨state_measure rs B rk ⟨bc.id, 0, 0, [], regs0⟩ + 1, ?_⟩
    unfold nft_do_chain
    rw [if_neg hns]
    exact nft_do_chain_run_terminates rs bc pkt (traceEnabled && pkt.nfTrace)
      pkt.gencursor B rk hB hrk (state_measure rs B rk ⟨bc.id, 0, 0, [], regs0⟩)
      ⟨bc.id, 0, 0, [], regs0⟩ le_rfl

/-- Witness for the amended C3: the empty rule set, under the constant
rank (no jump or goto can ever fire), terminates. -/
theorem nft_do_chain_terminates_ranked_witness :
    ∃ fuel, (nft_do_chain rsEmpty bcDrop pkt0 regsInit false fuel).isSome = true :=
  nft_do_chain_terminates_ranked rsEmpty bcDrop pkt0 regsInit false 2 (fun _ => 0)
    (fun _ => Nat.le_refl 2)
    (fun st h => by
      have hd : List.drop st.pos (rsEmpty.chains st.chain) = [] := List.drop_nil
      unfold nft_do_chain_phase at h
      rw [hd] at h
      simp only [nft_do_chain_rules, resetVerdict] at h
      exact absurd h (by decide))

end NftCore
